import Mathlib

/-!
Verification of the iggy streaming engine's message layer against its
natural-language specification.

The development shallowly embeds the Rust source:

* `src/server/src/streaming/models/messages.rs`
  (`RetainedMessage`: `new`, `extend`, `try_from_bytes`, `to_polled_message`,
  `Sizeable::get_size_bytes`);
* `src/server/src/http/messages.rs` (`send_messages`, `flush_unsaved_buffer`);
* `src/sdk/src/messages/mod.rs` (`MAX_HEADERS_SIZE`, `MAX_PAYLOAD_SIZE`);
* `src/bench/src/rate_limiter/mod.rs` (`RateLimiter::throttle`).

Machine integers are represented as `Nat` with explicit `% 2^w` at the points
where the Rust code truncates; byte buffers are `List Nat` whose entries are
byte values; fallible Rust code returns an explicit outcome type that also
records panics (out-of-range slice indexing).
-/

namespace Iggy

/-- Little-endian byte encoding of `n` in exactly `w` bytes, as produced by the
`put_uXX_le` family of `bytes::BufMut` (the value is taken mod `2^(8*w)`). -/
def leBytes : Nat → Nat → List Nat
  | 0, _ => []
  | w + 1, n => n % 256 :: leBytes w (n / 256)

/-- Little-endian decoding of a byte list, as performed by
`uXX::from_le_bytes` (each entry is read mod 256). -/
def leDecode : List Nat → Nat
  | [] => 0
  | b :: rest => b % 256 + 256 * leDecode rest

@[simp] theorem length_leBytes (w n : Nat) : (leBytes w n).length = w := by
  induction w generalizing n with
  | zero => rfl
  | succ w ih => simp [leBytes, ih]

theorem leDecode_leBytes (w n : Nat) : leDecode (leBytes w n) = n % 2 ^ (8 * w) := by
  induction w generalizing n with
  | zero => simp [leBytes, leDecode, Nat.mod_one]
  | succ w ih =>
    have h1 : n % (256 * 2 ^ (8 * w)) % 256 = n % 256 :=
      Nat.mod_mod_of_dvd n (dvd_mul_right 256 _)
    have h2 : n % (256 * 2 ^ (8 * w)) / 256 = n / 256 % 2 ^ (8 * w) :=
      Nat.mod_mul_right_div_self n 256 (2 ^ (8 * w))
    have h3 := Nat.div_add_mod (n % (256 * 2 ^ (8 * w))) 256
    have h256 : (2 : Nat) ^ (8 * (w + 1)) = 256 * 2 ^ (8 * w) := by ring
    rw [leBytes, leDecode, ih, h256]
    omega

theorem leDecode_leBytes_of_lt {w n : Nat} (h : n < 2 ^ (8 * w)) :
    leDecode (leBytes w n) = n := by
  rw [leDecode_leBytes, Nat.mod_eq_of_lt h]

theorem leBytes_lt (w n : Nat) : ∀ b ∈ leBytes w n, b < 256 := by
  induction w generalizing n with
  | zero => simp [leBytes]
  | succ w ih =>
    intro b hb
    rcases List.mem_cons.mp hb with h | h
    · exact h ▸ Nat.mod_lt _ (by norm_num)
    · exact ih _ b h

/-- Errors of the `IggyError` taxonomy that the message layer can surface. -/
inductive IggyError where
  | invalidNumberEncoding
  | invalidMessageState
  deriving DecidableEq, Repr

/-- Modelled from the spec: `MessageState` (defined in the SDK models, not under
`src/`) "encodes {Available, Unavailable, Poisoned, MarkedForDeletion}". -/
inductive MessageState where
  | available
  | unavailable
  | poisoned
  | markedForDeletion
  deriving DecidableEq, Repr

/-- Modelled from the spec: `MessageState::as_code` is not under `src/`; the spec
fixes the four states but not their byte codes, so an injective assignment of
`u8` codes is used. -/
def MessageState.as_code : MessageState → Nat
  | .available => 1
  | .unavailable => 10
  | .poisoned => 20
  | .markedForDeletion => 30

/-- Modelled from the spec: `MessageState::from_code` is not under `src/`; it is
the partial inverse of `as_code`, failing on any unassigned code. -/
def MessageState.from_code (code : Nat) : Except IggyError MessageState :=
  if code = 1 then .ok .available
  else if code = 10 then .ok .unavailable
  else if code = 20 then .ok .poisoned
  else if code = 30 then .ok .markedForDeletion
  else .error .invalidMessageState

theorem from_code_as_code (s : MessageState) :
    MessageState.from_code s.as_code = .ok s := by
  cases s <;> rfl

/-- `RetainedMessage` from `src/server/src/streaming/models/messages.rs`:
headers are the already-serialized header bytes (`Option<Bytes>`), the payload
is raw bytes. -/
structure RetainedMessage where
  id : Nat
  offset : Nat
  timestamp : Nat
  checksum : Nat
  message_state : MessageState
  headers : Option (List Nat)
  payload : List Nat
  deriving DecidableEq, Repr

namespace RetainedMessage

/-- `Sizeable::get_size_bytes`: `16 + 8 + 8 + 4 + 1 + headers_len + payload.len()`
with `headers_len = 4 + h.len()` when headers are present and `4` otherwise. -/
def get_size_bytes (m : RetainedMessage) : Nat :=
  let headers_len := match m.headers with
    | some h => 4 + h.length
    | none => 4
  16 + 8 + 8 + 4 + 1 + headers_len + m.payload.length

/-- `BufMut::put_u8`: appends one byte (a `u8`, hence mod 256). -/
def putU8 (buf : List Nat) (n : Nat) : List Nat := buf ++ [n % 256]

/-- `BufMut::put_u32_le`: appends the 4 little-endian bytes of a `u32`. -/
def putU32Le (buf : List Nat) (n : Nat) : List Nat :=
  buf ++ [n % 256, n / 256 % 256, n / 256 ^ 2 % 256, n / 256 ^ 3 % 256]

/-- `BufMut::put_u64_le`: appends the 8 little-endian bytes of a `u64`. -/
def putU64Le (buf : List Nat) (n : Nat) : List Nat :=
  buf ++ [n % 256, n / 256 % 256, n / 256 ^ 2 % 256, n / 256 ^ 3 % 256,
    n / 256 ^ 4 % 256, n / 256 ^ 5 % 256, n / 256 ^ 6 % 256, n / 256 ^ 7 % 256]

/-- `BufMut::put_u128_le`: appends the 16 little-endian bytes of a `u128`. -/
def putU128Le (buf : List Nat) (n : Nat) : List Nat :=
  buf ++ [n % 256, n / 256 % 256, n / 256 ^ 2 % 256, n / 256 ^ 3 % 256,
    n / 256 ^ 4 % 256, n / 256 ^ 5 % 256, n / 256 ^ 6 % 256, n / 256 ^ 7 % 256,
    n / 256 ^ 8 % 256, n / 256 ^ 9 % 256, n / 256 ^ 10 % 256, n / 256 ^ 11 % 256,
    n / 256 ^ 12 % 256, n / 256 ^ 13 % 256, n / 256 ^ 14 % 256, n / 256 ^ 15 % 256]

/-- `BufMut::put_slice`: appends the given bytes verbatim. -/
def putSlice (buf : List Nat) (s : List Nat) : List Nat := buf ++ s

/-- `RetainedMessage::extend(&self, bytes)`: the sequence of `put` calls,
in source order, applied to the incoming buffer. The length prefix is
`length.as_bytes_u64() as u32`, a truncating cast. -/
def extend (m : RetainedMessage) (bytes : List Nat) : List Nat :=
  let length := m.get_size_bytes
  let bytes := putU32Le bytes length
  let bytes := putU64Le bytes m.offset
  let bytes := putU8 bytes m.message_state.as_code
  let bytes := putU64Le bytes m.timestamp
  let bytes := putU128Le bytes m.id
  let bytes := putU32Le bytes m.checksum
  let bytes := match m.headers with
    | some headers => putSlice (putU32Le bytes headers.length) headers
    | none => putU32Le bytes 0
  putSlice bytes m.payload

/-- The bytes `extend` appends to an empty buffer (the full on-disk record,
length prefix included). -/
def extendBytes (m : RetainedMessage) : List Nat := m.extend []

end RetainedMessage

/-- Outcome of running fallible Rust code in the model: a value, a returned
`IggyError`, or a panic (out-of-range slice indexing aborts the thread instead
of returning an error). -/
inductive DecodeOutcome (α : Type) where
  | ok (value : α)
  | error (e : IggyError)
  | panic
  deriving DecidableEq, Repr

namespace RetainedMessage

/-- The byte at index `i`, for use after the bounds test; models `bytes[i]`. -/
def byteAt (bytes : List Nat) (i : Nat) : Nat := (bytes.drop i).headD 0

/-- `RetainedMessage::try_from_bytes`. Indexing follows the source exactly:
`bytes[..8]`, `bytes[8]`, `bytes[9..17]`, `bytes[17..33]`, `bytes[33..37]`,
`bytes[37..41]`, `bytes.slice(41..41+headers_length)`, `bytes.slice(position..)`.
Each slice panics when its end exceeds the input length; the
`map_err(InvalidNumberEncoding)` on `try_into` never fires because the
ranges have the exact width, so the only returned error comes from
`MessageState::from_code`. -/
def try_from_bytes (bytes : List Nat) : DecodeOutcome RetainedMessage :=
  if bytes.length < 8 then .panic
  else
    let offset := leDecode (bytes.take 8)
    if bytes.length < 9 then .panic
    else
      match MessageState.from_code (byteAt bytes 8) with
      | .error e => .error e
      | .ok message_state =>
        if bytes.length < 17 then .panic
        else
          let timestamp := leDecode ((bytes.drop 9).take 8)
          if bytes.length < 33 then .panic
          else
            let id := leDecode ((bytes.drop 17).take 16)
            if bytes.length < 37 then .panic
            else
              let checksum := leDecode ((bytes.drop 33).take 4)
              if bytes.length < 41 then .panic
              else
                let headers_length := leDecode ((bytes.drop 37).take 4)
                if bytes.length < 41 + headers_length then .panic
                else
                  let headers := if headers_length > 0 then
                      some ((bytes.drop 41).take headers_length)
                    else none
                  let payload := bytes.drop (41 + headers_length)
                  .ok { id, offset, timestamp, checksum, message_state,
                        headers, payload }

/-- The headers byte-length that `extend` serializes: `h.len()` when headers
are present, `0` otherwise. -/
def headersLen (m : RetainedMessage) : Nat :=
  match m.headers with
  | some h => h.length
  | none => 0

/-- The message record layout exactly as §3 of the spec words it: "fields in
fixed order — offset (u64), state (u8), timestamp (u64), id (u128), checksum
(u32), headers_length (u32), headers bytes (optional), payload bytes",
"additionally prefixed with a total record length (u32)", "every on-disk …
integer is little-endian". -/
def specRecordLayout (m : RetainedMessage) : List Nat :=
  leBytes 4 m.get_size_bytes ++ leBytes 8 m.offset ++
    leBytes 1 m.message_state.as_code ++ leBytes 8 m.timestamp ++
    leBytes 16 m.id ++ leBytes 4 m.checksum ++ leBytes 4 m.headersLen ++
    (m.headers.getD []) ++ m.payload

theorem extendBytes_eq_specRecordLayout (m : RetainedMessage) :
    m.extendBytes = m.specRecordLayout := by
  cases hm : m.headers with
  | none =>
    simp [extendBytes, extend, specRecordLayout, putU32Le, putU64Le, putU128Le,
      putU8, putSlice, leBytes, headersLen, hm, Nat.div_div_eq_div_mul,
      List.append_assoc]
  | some h =>
    simp [extendBytes, extend, specRecordLayout, putU32Le, putU64Le, putU128Le,
      putU8, putSlice, leBytes, headersLen, hm, Nat.div_div_eq_div_mul,
      List.append_assoc]

end RetainedMessage

theorem take_append_len {α : Type} (l₁ l₂ : List α) (n : Nat) (h : l₁.length = n) :
    (l₁ ++ l₂).take n = l₁ := by
  induction l₁ generalizing n with
  | nil =>
    have hn : n = 0 := by simpa using h.symm
    simp [hn]
  | cons a l₁ ih =>
    cases n with
    | zero => simp at h
    | succ n =>
      simp only [List.length_cons, Nat.succ.injEq] at h
      simp [List.take_succ_cons, ih n h]

theorem drop_append_len {α : Type} (l₁ l₂ : List α) (n : Nat) (h : l₁.length = n) :
    (l₁ ++ l₂).drop n = l₂ := by
  induction l₁ generalizing n with
  | nil =>
    have hn : n = 0 := by simpa using h.symm
    simp [hn]
  | cons a l₁ ih =>
    cases n with
    | zero => simp at h
    | succ n =>
      simp only [List.length_cons, Nat.succ.injEq] at h
      simp [List.drop_succ_cons, ih n h]

namespace RetainedMessage

theorem try_from_bytes_layout (off code ts idv ck : Nat) (st : MessageState)
    (hb payload : List Nat)
    (hoff : off < 2 ^ 64) (hts : ts < 2 ^ 64) (hid : idv < 2 ^ 128)
    (hck : ck < 2 ^ 32) (hcode : MessageState.from_code code = .ok st)
    (hcode256 : code < 256) (hhb : hb.length < 2 ^ 32) :
    try_from_bytes (leBytes 8 off ++ (leBytes 1 code ++ (leBytes 8 ts ++
        (leBytes 16 idv ++ (leBytes 4 ck ++ (leBytes 4 hb.length ++
        (hb ++ payload))))))) =
      .ok { id := idv, offset := off, timestamp := ts, checksum := ck,
            message_state := st,
            headers := if hb.length > 0 then some hb else none,
            payload := payload } := by
  set B := leBytes 8 off ++ (leBytes 1 code ++ (leBytes 8 ts ++
    (leBytes 16 idv ++ (leBytes 4 ck ++ (leBytes 4 hb.length ++
    (hb ++ payload)))))) with hB
  have hL : B.length = 41 + hb.length + payload.length := by
    simp [hB]
    omega
  have t_off : B.take 8 = leBytes 8 off := take_append_len _ _ _ (by simp)
  have d8 : B.drop 8 = leBytes 1 code ++ (leBytes 8 ts ++ (leBytes 16 idv ++
      (leBytes 4 ck ++ (leBytes 4 hb.length ++ (hb ++ payload))))) :=
    drop_append_len _ _ _ (by simp)
  have b8 : byteAt B 8 = code := by
    rw [byteAt, d8]
    simpa [leBytes] using Nat.mod_eq_of_lt hcode256
  have d9 : B.drop 9 = leBytes 8 ts ++ (leBytes 16 idv ++
      (leBytes 4 ck ++ (leBytes 4 hb.length ++ (hb ++ payload)))) := by
    have h99 : B.drop 9 = (B.drop 8).drop 1 := by rw [List.drop_drop]
    rw [h99, d8]
    exact drop_append_len _ _ _ (by simp)
  have t_ts : (B.drop 9).take 8 = leBytes 8 ts := by
    rw [d9]; exact take_append_len _ _ _ (by simp)
  have d17 : B.drop 17 = leBytes 16 idv ++
      (leBytes 4 ck ++ (leBytes 4 hb.length ++ (hb ++ payload))) := by
    have h99 : B.drop 17 = (B.drop 9).drop 8 := by rw [List.drop_drop]
    rw [h99, d9]
    exact drop_append_len _ _ _ (by simp)
  have t_id : (B.drop 17).take 16 = leBytes 16 idv := by
    rw [d17]; exact take_append_len _ _ _ (by simp)
  have d33 : B.drop 33 = leBytes 4 ck ++ (leBytes 4 hb.length ++ (hb ++ payload)) := by
    have h99 : B.drop 33 = (B.drop 17).drop 16 := by rw [List.drop_drop]
    rw [h99, d17]
    exact drop_append_len _ _ _ (by simp)
  have t_ck : (B.drop 33).take 4 = leBytes 4 ck := by
    rw [d33]; exact take_append_len _ _ _ (by simp)
  have d37 : B.drop 37 = leBytes 4 hb.length ++ (hb ++ payload) := by
    have h99 : B.drop 37 = (B.drop 33).drop 4 := by rw [List.drop_drop]
    rw [h99, d33]
    exact drop_append_len _ _ _ (by simp)
  have t_hl : (B.drop 37).take 4 = leBytes 4 hb.length := by
    rw [d37]; exact take_append_len _ _ _ (by simp)
  have d41 : B.drop 41 = hb ++ payload := by
    have h99 : B.drop 41 = (B.drop 37).drop 4 := by rw [List.drop_drop]
    rw [h99, d37]
    exact drop_append_len _ _ _ (by simp)
  have t_hb : (B.drop 41).take hb.length = hb := by
    rw [d41]; exact take_append_len _ _ _ rfl
  have d_pl : B.drop (41 + hb.length) = payload := by
    have h99 : B.drop (41 + hb.length) = (B.drop 41).drop hb.length := by
      rw [List.drop_drop, Nat.add_comm]
    rw [h99, d41]
    exact drop_append_len _ _ _ rfl
  have e_off : leDecode (leBytes 8 off) = off := leDecode_leBytes_of_lt hoff
  have e_ts : leDecode (leBytes 8 ts) = ts := leDecode_leBytes_of_lt hts
  have e_id : leDecode (leBytes 16 idv) = idv := leDecode_leBytes_of_lt hid
  have e_ck : leDecode (leBytes 4 ck) = ck := leDecode_leBytes_of_lt hck
  have e_hl : leDecode (leBytes 4 hb.length) = hb.length := leDecode_leBytes_of_lt hhb
  rw [try_from_bytes]
  rw [if_neg (by omega : ¬B.length < 8), if_neg (by omega : ¬B.length < 9)]
  rw [b8, hcode]
  simp only [t_off, t_ts, t_id, t_ck, t_hl, e_off, e_ts, e_id, e_ck, e_hl,
    if_neg (by omega : ¬B.length < 17), if_neg (by omega : ¬B.length < 33),
    if_neg (by omega : ¬B.length < 37), if_neg (by omega : ¬B.length < 41),
    if_neg (by omega : ¬B.length < 41 + hb.length), t_hb, d_pl]

theorem as_code_lt_256 (s : MessageState) : s.as_code < 256 := by
  cases s <;> decide

/-- C1 (amended): for every message whose integer fields fit their Rust types,
whose headers field is not `Some` of an empty byte string, and whose headers
are shorter than `2^32` bytes, decoding the record that `extend` writes after
its 4-byte length prefix yields the message back, field for field. -/
theorem try_from_bytes_extend_roundtrip (m : RetainedMessage)
    (hoff : m.offset < 2 ^ 64) (hts : m.timestamp < 2 ^ 64)
    (hid : m.id < 2 ^ 128) (hck : m.checksum < 2 ^ 32)
    (hh : m.headers ≠ some ([] : List Nat)) (hhl : m.headersLen < 2 ^ 32) :
    try_from_bytes (m.extendBytes.drop 4) = .ok m := by
  obtain ⟨idv, off, ts, ck, st, hdrs, pl⟩ := m
  rw [extendBytes_eq_specRecordLayout]
  unfold specRecordLayout
  simp only [List.append_assoc]
  rw [drop_append_len _ _ 4 (by simp)]
  cases hdrs with
  | none =>
    have h0 : (([] : List Nat)).length < 2 ^ 32 := by decide
    have hmain := try_from_bytes_layout off st.as_code ts idv ck st [] pl hoff
      hts hid hck (from_code_as_code st) (as_code_lt_256 st) h0
    simpa [headersLen, leBytes] using hmain
  | some h =>
    have hne : h ≠ [] := by
      intro he
      exact hh (by simp [he])
    have hlen : 0 < h.length := List.length_pos.mpr hne
    have hlt : h.length < 2 ^ 32 := by simpa [headersLen] using hhl
    have hmain := try_from_bytes_layout off st.as_code ts idv ck st h pl hoff
      hts hid hck (from_code_as_code st) (as_code_lt_256 st) hlt
    rw [if_pos hlen] at hmain
    simpa [headersLen, leBytes] using hmain

/-- Witness for C1: the round trip evaluated at a concrete message with
headers present, all hypotheses discharged by computation. -/
theorem try_from_bytes_extend_roundtrip_witness :
    try_from_bytes ((extendBytes
      { id := 77, offset := 3, timestamp := 1700000000000000, checksum := 42,
        message_state := .poisoned, headers := some [1, 2, 3],
        payload := [9, 8, 7] }).drop 4) =
      .ok { id := 77, offset := 3, timestamp := 1700000000000000, checksum := 42,
            message_state := .poisoned, headers := some [1, 2, 3],
            payload := [9, 8, 7] } :=
  try_from_bytes_extend_roundtrip
    { id := 77, offset := 3, timestamp := 1700000000000000, checksum := 42,
      message_state := .poisoned, headers := some [1, 2, 3],
      payload := [9, 8, 7] }
    (by decide) (by decide) (by decide) (by decide) (by decide) (by decide)

/-- Counterexample to C1 as stated: a message whose headers field is
`Some` of the empty byte string does not survive the round trip — `extend`
writes `headers_length = 0` and `try_from_bytes` maps that back to `None`. -/
theorem try_from_bytes_extend_some_empty_headers_lost :
    try_from_bytes ((extendBytes
      { id := 0, offset := 0, timestamp := 0, checksum := 0,
        message_state := .available, headers := some [], payload := [] }).drop 4) ≠
      .ok { id := 0, offset := 0, timestamp := 0, checksum := 0,
            message_state := .available, headers := some [], payload := [] } := by
  decide

/-- C3: the record `extend` produces is, in this exact order: a little-endian
u32 total-size prefix, offset (u64 LE), state (u8), timestamp (u64 LE),
id (u128 LE), checksum (u32 LE), headers_length (u32 LE), the headers bytes
when present, then the payload bytes — the layout §3 of the spec describes. -/
theorem extend_matches_spec_layout (m : RetainedMessage) :
    m.extendBytes = m.specRecordLayout := by
  cases hm : m.headers with
  | none =>
    simp [extendBytes, extend, specRecordLayout, putU32Le, putU64Le, putU128Le,
      putU8, putSlice, leBytes, headersLen, hm, Nat.div_div_eq_div_mul,
      List.append_assoc]
  | some h =>
    simp [extendBytes, extend, specRecordLayout, putU32Le, putU64Le, putU128Le,
      putU8, putSlice, leBytes, headersLen, hm, Nat.div_div_eq_div_mul,
      List.append_assoc]

/-- C2: `try_from_bytes` is not total — on the empty input (and on a 40-byte
input, one short of the fixed header) the slice indexing panics instead of
returning an error of the `InvalidEncoding` family. -/
theorem try_from_bytes_panics_on_short_input :
    try_from_bytes ([] : List Nat) = .panic ∧
    try_from_bytes (List.replicate 40 1) = .panic := by
  decide

/-- C8 (amended): for every message whose record size fits in a u32 — which
includes every message within the enforced 10 MB payload and 100 KB headers
limits — the u32 length prefix that `extend` writes equals `get_size_bytes`,
which equals the number of bytes `extend` appends after the prefix
(41 fixed bytes plus headers length plus payload length), and `extend`
appends `4 + get_size_bytes` bytes in total. -/
theorem extend_length_prefix_correct (m : RetainedMessage)
    (hsize : m.get_size_bytes < 2 ^ 32) :
    leDecode (m.extendBytes.take 4) = m.get_size_bytes ∧
    (m.extendBytes.drop 4).length = m.get_size_bytes ∧
    m.get_size_bytes = 41 + m.headersLen + m.payload.length ∧
    m.extendBytes.length = 4 + m.get_size_bytes := by
  have hlay := extendBytes_eq_specRecordLayout m
  have hgetD : (m.headers.getD []).length = m.headersLen := by
    cases hm : m.headers <;> simp [headersLen, hm]
  have hsz : m.get_size_bytes = 41 + m.headersLen + m.payload.length := by
    cases hm : m.headers with
    | none =>
      simp [get_size_bytes, headersLen, hm]
    | some h =>
      simp [get_size_bytes, headersLen, hm]
      omega
  have hlen : m.extendBytes.length = 45 + m.headersLen + m.payload.length := by
    rw [hlay]
    simp [specRecordLayout, hgetD]
    omega
  have htake : m.extendBytes.take 4 = leBytes 4 m.get_size_bytes := by
    rw [hlay]
    unfold specRecordLayout
    simp only [List.append_assoc]
    exact take_append_len _ _ 4 (by simp)
  refine ⟨?_, ?_, hsz, ?_⟩
  · rw [htake]
    exact leDecode_leBytes_of_lt hsize
  · simp only [List.length_drop]
    omega
  · omega

/-- Witness for C8: the prefix/size agreement evaluated at a concrete
message. -/
theorem extend_length_prefix_correct_witness :
    leDecode ((RetainedMessage.extendBytes
      { id := 9, offset := 1, timestamp := 2, checksum := 3,
        message_state := .available, headers := some [4, 5],
        payload := [6, 7, 8] }).take 4) =
      RetainedMessage.get_size_bytes
        { id := 9, offset := 1, timestamp := 2, checksum := 3,
          message_state := .available, headers := some [4, 5],
          payload := [6, 7, 8] } :=
  (extend_length_prefix_correct
    { id := 9, offset := 1, timestamp := 2, checksum := 3,
      message_state := .available, headers := some [4, 5],
      payload := [6, 7, 8] } (by decide)).1

/-- Counterexample to C8 as stated: a message whose record is exactly `2^32`
bytes long (a 4294967255-byte payload, no headers) gets length prefix 0, not
`get_size_bytes` — `length.as_bytes_u64() as u32` truncates. -/
theorem extend_length_prefix_truncates :
    leDecode ((RetainedMessage.extendBytes
      { id := 0, offset := 0, timestamp := 0, checksum := 0,
        message_state := .available, headers := none,
        payload := List.replicate (2 ^ 32 - 41) 0 }).take 4) ≠
      RetainedMessage.get_size_bytes
        { id := 0, offset := 0, timestamp := 0, checksum := 0,
          message_state := .available, headers := none,
          payload := List.replicate (2 ^ 32 - 41) 0 } := by
  have gen : ∀ n : Nat,
      RetainedMessage.get_size_bytes
        { id := 0, offset := 0, timestamp := 0, checksum := 0,
          message_state := .available, headers := none,
          payload := List.replicate n 0 } = 41 + n := by
    intro n
    simp [get_size_bytes]
  have hsz : RetainedMessage.get_size_bytes
      { id := 0, offset := 0, timestamp := 0, checksum := 0,
        message_state := .available, headers := none,
        payload := List.replicate (2 ^ 32 - 41) 0 } = 2 ^ 32 := by
    rw [gen]
    norm_num
  have htake : (RetainedMessage.extendBytes
      { id := 0, offset := 0, timestamp := 0, checksum := 0,
        message_state := .available, headers := none,
        payload := List.replicate (2 ^ 32 - 41) 0 }).take 4 =
      leBytes 4 (RetainedMessage.get_size_bytes
        { id := 0, offset := 0, timestamp := 0, checksum := 0,
          message_state := .available, headers := none,
          payload := List.replicate (2 ^ 32 - 41) 0 }) := by
    rw [extendBytes_eq_specRecordLayout]
    unfold specRecordLayout
    simp only [List.append_assoc]
    exact take_append_len _ _ 4 (length_leBytes 4 _)
  rw [htake, leDecode_leBytes, hsz]
  norm_num

end RetainedMessage

/-- Modelled from the spec: a header map — "a map from header-name (short
string) to (kind, value-bytes)" (§3); the SDK `HashMap<HeaderKey, HeaderValue>`
is not under `src/`. Names are byte strings, kinds are the primitive-type
codes, values are raw bytes. -/
structure HeaderEntry where
  key : List Nat
  kind : Nat
  value : List Nat
  deriving DecidableEq, Repr

/-- A header map, as a list of entries. -/
abbrev HeaderMap := List HeaderEntry

/-- Modelled from the spec: `HashMap::to_bytes` for headers is not under
`src/`; per §4.1 "strings are length-prefixed with a single byte for short
names and a u32 for payloads", each entry is serialized as a one-byte key
length, the key, the kind byte, a u32 LE value length, and the value. -/
def headersToBytes (h : HeaderMap) : List Nat :=
  (h.map (fun e => leBytes 1 e.key.length ++ e.key ++ leBytes 1 e.kind ++
    leBytes 4 e.value.length ++ e.value)).flatten

/-- Modelled from the spec: `checksum::calculate` is not under `src/`; the
spec says "Checksum is a 32-bit hash (xxh32 or CRC32; implementer chooses)" —
a 32-bit FNV-1a over the payload bytes serves as the concrete stable hash. -/
def checksum_calculate (payload : List Nat) : Nat :=
  payload.foldl (fun acc b => ((acc ^^^ b % 256) * 16777619) % 2 ^ 32) 2166136261

/-- `Message` from the SDK's `send_messages` (id, length, payload, optional
headers), the shape the append path receives. -/
structure Message where
  id : Nat
  length : Nat
  payload : List Nat
  headers : Option HeaderMap
  deriving DecidableEq, Repr

namespace RetainedMessage

/-- `RetainedMessage::new(offset, timestamp, message)`: checksum over the
payload only, state `Available`, headers serialized via `to_bytes`. -/
def new (offset timestamp : Nat) (message : Message) : RetainedMessage :=
  { offset := offset
    timestamp := timestamp
    checksum := checksum_calculate message.payload
    message_state := .available
    id := message.id
    payload := message.payload
    headers := message.headers.map headersToBytes }

end RetainedMessage

/-- `PolledMessage` from the SDK models, generic over the decoded header-map
type: offset, state, timestamp, id, checksum, decoded headers, payload length,
payload. -/
structure PolledMessage (H : Type) where
  offset : Nat
  state : MessageState
  timestamp : Nat
  id : Nat
  checksum : Nat
  headers : Option H
  length : Nat
  payload : List Nat

/-- `Option::transpose` for fallible results, as used on
`headers.map(from_bytes).transpose()?`. -/
def optionTranspose {ε α : Type} : Option (Except ε α) → Except ε (Option α)
  | none => .ok none
  | some (.ok a) => .ok (some a)
  | some (.error e) => .error e

namespace RetainedMessage

/-- `RetainedMessage::to_polled_message`. `HashMap::from_bytes` is not under
`src/`, so the header decoder is a parameter; everything else follows the
source: decode the headers when present (propagating the error), copy offset,
state, timestamp, id, checksum and payload, and set `length` to the payload's
byte length. -/
def to_polled_message {H : Type} (from_bytes : List Nat → Except IggyError H)
    (m : RetainedMessage) : Except IggyError (PolledMessage H) :=
  match optionTranspose (m.headers.map from_bytes) with
  | .error e => .error e
  | .ok headers =>
    .ok { offset := m.offset
          state := m.message_state
          timestamp := m.timestamp
          id := m.id
          checksum := m.checksum
          headers := headers
          length := m.payload.length
          payload := m.payload }

end RetainedMessage

/-- `MAX_HEADERS_SIZE` from `src/sdk/src/messages/mod.rs`: `100 * 1000`. -/
def MAX_HEADERS_SIZE : Nat := 100 * 1000

/-- `MAX_PAYLOAD_SIZE` from `src/sdk/src/messages/mod.rs`: `10 * 1000 * 1000`. -/
def MAX_PAYLOAD_SIZE : Nat := 10 * 1000 * 1000

/-- `RateLimiter` from `src/bench/src/rate_limiter/mod.rs`: a configured byte
rate and the last-operation instant. Instants and durations are modelled as
exact rationals (seconds); the source computes in `f64`. -/
structure RateLimiter where
  bytes_per_second : Nat
  last_operation : ℚ
  deriving DecidableEq

/-- `RateLimiter::throttle(bytes)`: `time_per_byte = 1 / rate`,
`target_duration = bytes * time_per_byte`, `elapsed = now.duration_since
(last_operation)` (which saturates at zero, as `Instant::duration_since`
does); when `elapsed < target_duration` the call sleeps the deficit and
stores `now + sleep_duration`, otherwise it stores `now` and does not sleep.
Returns the slept duration and the updated state. -/
def RateLimiter.throttle (r : RateLimiter) (now : ℚ) (bytes : Nat) :
    ℚ × RateLimiter :=
  let time_per_byte : ℚ := 1 / (r.bytes_per_second : ℚ)
  let target_duration : ℚ := (bytes : ℚ) * time_per_byte
  let elapsed : ℚ := max (now - r.last_operation) 0
  if elapsed < target_duration then
    let sleep_duration := target_duration - elapsed
    (sleep_duration, { r with last_operation := now + sleep_duration })
  else
    (0, { r with last_operation := now })

/-- Modelled from the spec: `Identifier` is not under `src/`; per §3 entities
are "identified by a 32-bit numeric id and a unique human name", and
`Identifier::from_str_value` yields one of the two forms. -/
inductive Identifier where
  | numeric (id : Nat)
  | named (name : String)
  deriving DecidableEq, Repr

/-- Modelled from the spec: the partitioning kinds of §4.4 — {Balanced,
PartitionId, MessagesKey}. -/
inductive PartitioningKind where
  | balanced
  | partitionId
  | messagesKey
  deriving DecidableEq, Repr

/-- `Partitioning` from the SDK: kind, one-byte length, value bytes. -/
structure Partitioning where
  kind : PartitioningKind
  length : Nat
  value : List Nat
  deriving DecidableEq, Repr

/-- `SendMessages` from the SDK: stream id, topic id, partitioning, and the
message batch. -/
structure SendMessages where
  stream_id : Identifier
  topic_id : Identifier
  partitioning : Partitioning
  messages : List Message
  deriving DecidableEq, Repr

/-- The id-assignment pass of the HTTP `send_messages` handler: every message
with `id == 0` gets a freshly generated id (`random_id::get_uuid()`, modelled
as a generator indexed by the message's position), all other messages are
kept unchanged. -/
def assign_message_ids (gen : Nat → Nat) (msgs : List Message) : List Message :=
  msgs.enum.map (fun p => if p.2.id = 0 then { p.2 with id := gen p.1 } else p.2)

/-- The HTTP `send_messages` handler from `src/server/src/http/messages.rs`,
with its collaborators (path-identifier parsing, `command.validate()`, and
`system.append_messages`) as parameters: set the ids from the path, set
`partitioning.length` to the value's length (a `u8` cast), replace zero
message ids, validate, append, and return status 201 (Created). -/
def send_messages {ε : Type}
    (parse_stream parse_topic : Except ε Identifier)
    (gen : Nat → Nat)
    (validate : SendMessages → Except ε Unit)
    (append : Identifier → Identifier → Partitioning → List Message →
      Except ε Unit)
    (command : SendMessages) : Except ε Nat :=
  match parse_stream with
  | .error e => .error e
  | .ok sid =>
    match parse_topic with
    | .error e => .error e
    | .ok tid =>
      let command : SendMessages :=
        { command with
          stream_id := sid
          topic_id := tid
          partitioning :=
            { command.partitioning with
              length := command.partitioning.value.length % 256 }
          messages := assign_message_ids gen command.messages }
      match validate command with
      | .error e => .error e
      | .ok _ =>
        match append command.stream_id command.topic_id command.partitioning
            command.messages with
        | .error e => .error e
        | .ok _ => .ok 201

/-- The HTTP `flush_unsaved_buffer` handler from
`src/server/src/http/messages.rs`, with identifier parsing and
`system.flush_unsaved_buffer` as parameters: parse both ids, flush, and
return status 200 (OK). -/
def flush_unsaved_buffer {ε : Type}
    (parse_stream parse_topic : Except ε Identifier)
    (flush : Identifier → Identifier → Nat → Bool → Except ε Unit)
    (partition_id : Nat) (fsync : Bool) : Except ε Nat :=
  match parse_stream with
  | .error e => .error e
  | .ok sid =>
    match parse_topic with
    | .error e => .error e
    | .ok tid =>
      match flush sid tid partition_id fsync with
      | .error e => .error e
      | .ok _ => .ok 200

/-- C4: `RetainedMessage::new` computes the stored checksum over the payload
bytes only — it equals `checksum_calculate` of the payload, so two accepted
messages with equal payloads receive equal checksums regardless of their id,
headers, offset, or timestamp. -/
theorem new_checksum_over_payload_only :
    (∀ (off ts : Nat) (msg : Message),
      (RetainedMessage.new off ts msg).checksum = checksum_calculate msg.payload) ∧
    (∀ (off₁ ts₁ : Nat) (m₁ : Message) (off₂ ts₂ : Nat) (m₂ : Message),
      m₁.payload = m₂.payload →
      (RetainedMessage.new off₁ ts₁ m₁).checksum =
        (RetainedMessage.new off₂ ts₂ m₂).checksum) := by
  refine ⟨fun off ts msg => rfl, fun off₁ ts₁ m₁ off₂ ts₂ m₂ hp => ?_⟩
  simp [RetainedMessage.new, hp]

/-- Witness for C4: two concrete messages with the same payload but different
ids, headers, offsets and timestamps get the same checksum. -/
theorem new_checksum_over_payload_only_witness :
    (RetainedMessage.new 0 0
      { id := 1, length := 2, payload := [1, 2], headers := none }).checksum =
    (RetainedMessage.new 5 6
      { id := 9, length := 0, payload := [1, 2],
        headers := some [{ key := [7], kind := 1, value := [8] }] }).checksum :=
  new_checksum_over_payload_only.2 0 0
    { id := 1, length := 2, payload := [1, 2], headers := none } 5 6
    { id := 9, length := 0, payload := [1, 2],
      headers := some [{ key := [7], kind := 1, value := [8] }] } rfl

/-- C5: the enforced size limits are `MAX_HEADERS_SIZE = 100 * 1000` bytes
(100 KB) and `MAX_PAYLOAD_SIZE = 10 * 1000 * 1000` bytes (10 MB). -/
theorem max_sizes_are_100kb_and_10mb :
    MAX_HEADERS_SIZE = 100000 ∧ MAX_PAYLOAD_SIZE = 10000000 := by
  decide

/-- C6: for a limiter with positive `bytes_per_second = rate`, a
`throttle(n)` call with `target = n / rate` and `elapsed` the (saturating)
duration since `last_operation` sleeps `target - elapsed` and stores
`last_operation = now + (target - elapsed)` when `elapsed < target`, and
sleeps nothing and stores `last_operation = now` otherwise. -/
theorem throttle_linger (r : RateLimiter) (now : ℚ) (n : Nat)
    (_hrate : 0 < r.bytes_per_second) :
    (max (now - r.last_operation) 0 < (n : ℚ) / (r.bytes_per_second : ℚ) →
      (r.throttle now n).1 =
        (n : ℚ) / (r.bytes_per_second : ℚ) - max (now - r.last_operation) 0 ∧
      (r.throttle now n).2.last_operation =
        now + ((n : ℚ) / (r.bytes_per_second : ℚ) -
          max (now - r.last_operation) 0)) ∧
    (¬ max (now - r.last_operation) 0 < (n : ℚ) / (r.bytes_per_second : ℚ) →
      (r.throttle now n).1 = 0 ∧
      (r.throttle now n).2.last_operation = now) := by
  have htd : (n : ℚ) * (1 / (r.bytes_per_second : ℚ)) =
      (n : ℚ) / (r.bytes_per_second : ℚ) := mul_one_div _ _
  simp only [RateLimiter.throttle, htd]
  constructor
  · intro h
    rw [if_pos h]
    exact ⟨rfl, rfl⟩
  · intro h
    rw [if_neg h]
    exact ⟨rfl, rfl⟩

/-- Witness for C6: 100 bytes against a fresh 1000 B/s limiter sleeps exactly
1/10 s and stores `last_operation = 1/10` (the spec's own test point). -/
theorem throttle_linger_witness :
    (RateLimiter.throttle { bytes_per_second := 1000, last_operation := 0 }
      0 100).1 = 1 / 10 ∧
    (RateLimiter.throttle { bytes_per_second := 1000, last_operation := 0 }
      0 100).2.last_operation = 1 / 10 := by
  have h := (throttle_linger
    { bytes_per_second := 1000, last_operation := 0 } 0 100 (by norm_num)).1
    (by norm_num)
  norm_num at h
  exact h

/-- C7: with parsing, validation, append and flush all succeeding, the HTTP
`send_messages` handler returns status 201 (Created) and the
`flush_unsaved_buffer` handler returns status 200 (OK). -/
theorem http_handlers_status_codes {ε : Type}
    (sid tid : Identifier) (gen : Nat → Nat)
    (validate : SendMessages → Except ε Unit)
    (append : Identifier → Identifier → Partitioning → List Message →
      Except ε Unit)
    (flush : Identifier → Identifier → Nat → Bool → Except ε Unit)
    (command : SendMessages) (partition_id : Nat) (fsync : Bool)
    (hval : ∀ c, validate c = .ok ())
    (happ : ∀ a b c d, append a b c d = .ok ())
    (hfl : ∀ a b c d, flush a b c d = .ok ()) :
    send_messages (.ok sid) (.ok tid) gen validate append command = .ok 201 ∧
    flush_unsaved_buffer (.ok sid) (.ok tid) flush partition_id fsync =
      .ok 200 := by
  constructor
  · simp [send_messages, hval, happ]
  · simp [flush_unsaved_buffer, hfl]

/-- Witness for C7: the two handlers evaluated with concrete always-ok
collaborators. -/
theorem http_handlers_status_codes_witness :
    send_messages (ε := Unit) (.ok (.numeric 1)) (.ok (.numeric 2))
      (fun _ => 1) (fun _ => .ok ()) (fun _ _ _ _ => .ok ())
      { stream_id := .numeric 0, topic_id := .numeric 0,
        partitioning := { kind := .balanced, length := 0, value := [] },
        messages := [] } = .ok 201 ∧
    flush_unsaved_buffer (ε := Unit) (.ok (.numeric 1)) (.ok (.numeric 2))
      (fun _ _ _ _ => .ok ()) 1 true = .ok 200 :=
  http_handlers_status_codes (.numeric 1) (.numeric 2) (fun _ => 1)
    (fun _ => .ok ()) (fun _ _ _ _ => .ok ()) (fun _ _ _ _ => .ok ())
    { stream_id := .numeric 0, topic_id := .numeric 0,
      partitioning := { kind := .balanced, length := 0, value := [] },
      messages := [] } 1 true
    (fun _ => rfl) (fun _ _ _ _ => rfl) (fun _ _ _ _ => rfl)

/-- C9: in the HTTP `send_messages` handler, before validation and append,
every message with id 0 has its id replaced by the freshly generated id for
its position and every message with a nonzero id is kept unchanged; since
generated UUIDs are nonzero, no message reaches the append path with id 0 —
the batch handed to `append` is exactly `assign_message_ids` of the incoming
batch. -/
theorem send_messages_replaces_zero_ids (gen : Nat → Nat)
    (msgs : List Message) (hgen : ∀ i, gen i ≠ 0) :
    (∀ i : Nat, (assign_message_ids gen msgs)[i]? =
      msgs[i]?.map (fun m => if m.id = 0 then { m with id := gen i } else m)) ∧
    (∀ m ∈ assign_message_ids gen msgs, m.id ≠ 0) ∧
    (∀ (sid tid : Identifier) (command : SendMessages)
      (validate : SendMessages → Except (List Message) Unit),
      (∀ c, validate c = .ok ()) →
      send_messages (.ok sid) (.ok tid) gen validate
        (fun _ _ _ batch => .error batch) command =
        .error (assign_message_ids gen command.messages)) := by
  refine ⟨?_, ?_, ?_⟩
  · intro i
    simp [assign_message_ids, List.getElem?_map, List.getElem?_enum,
      Option.map_map]
    rfl
  · intro m hm
    simp only [assign_message_ids, List.mem_map] at hm
    obtain ⟨⟨i, a⟩, hmem, rfl⟩ := hm
    by_cases ha : a.id = 0
    · simpa [ha] using hgen i
    · simp [ha]
  · intro sid tid command validate hval
    simp [send_messages, hval]

/-- Witness for C9: a concrete batch where the zero id is replaced by the
generated id and the nonzero id is kept. -/
theorem send_messages_replaces_zero_ids_witness :
    ((assign_message_ids (fun i => i + 7)
      [{ id := 0, length := 0, payload := [], headers := none },
       { id := 5, length := 0, payload := [], headers := none }])[0]? =
      some { id := 7, length := 0, payload := [], headers := none } ∧
     ∀ m ∈ assign_message_ids (fun i => i + 7)
      [{ id := 0, length := 0, payload := [], headers := none },
       { id := 5, length := 0, payload := [], headers := none }], m.id ≠ 0) := by
  have h := send_messages_replaces_zero_ids (fun i => i + 7)
    [{ id := 0, length := 0, payload := [], headers := none },
     { id := 5, length := 0, payload := [], headers := none }]
    (by intro i; show i + 7 ≠ 0; omega)
  refine ⟨?_, h.2.1⟩
  have h0 := h.1 0
  simpa using h0

/-- C10: for every retained message whose header bytes (when present) decode
successfully, `to_polled_message` yields a `PolledMessage` that keeps offset,
state, timestamp, id, checksum and payload, and whose `length` is the
payload's byte length; and every message built by `RetainedMessage::new` has
state `Available`. -/
theorem to_polled_message_preserves_fields {H : Type}
    (from_bytes : List Nat → Except IggyError H) (m : RetainedMessage)
    (hdec : ∀ hb, m.headers = some hb → ∃ hv, from_bytes hb = .ok hv) :
    (∃ pm : PolledMessage H,
      RetainedMessage.to_polled_message from_bytes m = .ok pm ∧
      pm.offset = m.offset ∧ pm.state = m.message_state ∧
      pm.timestamp = m.timestamp ∧ pm.id = m.id ∧
      pm.checksum = m.checksum ∧ pm.payload = m.payload ∧
      pm.length = m.payload.length) ∧
    (∀ (off ts : Nat) (msg : Message),
      (RetainedMessage.new off ts msg).message_state = .available) := by
  refine ⟨?_, fun off ts msg => rfl⟩
  cases hm : m.headers with
  | none =>
    refine ⟨{ offset := m.offset, state := m.message_state,
              timestamp := m.timestamp, id := m.id, checksum := m.checksum,
              headers := none, length := m.payload.length,
              payload := m.payload }, ?_, rfl, rfl, rfl, rfl, rfl, rfl, rfl⟩
    simp [RetainedMessage.to_polled_message, optionTranspose, hm]
  | some hb =>
    obtain ⟨hv, hok⟩ := hdec hb hm
    refine ⟨{ offset := m.offset, state := m.message_state,
              timestamp := m.timestamp, id := m.id, checksum := m.checksum,
              headers := some hv, length := m.payload.length,
              payload := m.payload }, ?_, rfl, rfl, rfl, rfl, rfl, rfl, rfl⟩
    simp [RetainedMessage.to_polled_message, optionTranspose, hm, hok]

/-- Witness for C10: field preservation evaluated at a concrete retained
message with headers, using the identity byte decoder. -/
theorem to_polled_message_preserves_fields_witness :
    (∃ pm : PolledMessage (List Nat),
      RetainedMessage.to_polled_message Except.ok
        { id := 4, offset := 5, timestamp := 6, checksum := 7,
          message_state := .unavailable, headers := some [1, 2],
          payload := [3, 4, 5] } = .ok pm ∧
      pm.offset = 5 ∧ pm.state = .unavailable ∧ pm.timestamp = 6 ∧
      pm.id = 4 ∧ pm.checksum = 7 ∧ pm.payload = [3, 4, 5] ∧
      pm.length = 3) ∧
    (∀ (off ts : Nat) (msg : Message),
      (RetainedMessage.new off ts msg).message_state = .available) :=
  to_polled_message_preserves_fields Except.ok
    { id := 4, offset := 5, timestamp := 6, checksum := 7,
      message_state := .unavailable, headers := some [1, 2],
      payload := [3, 4, 5] }
    (fun hb _ => ⟨hb, rfl⟩)

end Iggy

